import Mathlib

/-!
Verification of the real-time audio analysis pipeline of `wcr_viz`
(`src/audio/analysis.rs`).  The analyzer's pure numeric code is embedded
shallowly: `f32` arithmetic is modelled exactly over a linear ordered field
(instantiated at `ℚ` for executable checks and at `ℝ` where the source uses
transcendental functions `ln` and `sqrt`), `VecDeque` becomes `List` with
`push_back = · ++ [x]` and `pop_front = List.drop 1`, and the external FFT
engine (`realfft` crate) is an abstract fallible function parameter.
-/

/-- Mirror of `FrequencyData` (analysis.rs lines 11-27): magnitude bins, the
bin center frequencies, peak frequency, spectral centroid and spectral
energy of one transformed frame. -/
structure FrequencyData (α : Type) where
  bins : List α
  binFrequencies : List α
  peakFrequency : α
  spectralCentroid : α
  spectralEnergy : α

/-- Mirror of `convert_to_mono` (analysis.rs lines 163-180): a single channel
passes through unchanged; otherwise each full sample period of `channels`
interleaved samples is averaged, and a trailing partial period is dropped
(`frame_count = samples.len() / channels`). -/
def convert_to_mono {α : Type} [LinearOrderedField α]
    (samples : List α) (channels : ℕ) : List α :=
  if channels = 1 then samples
  else
    (List.range (samples.length / channels)).map
      (fun frame => ((samples.drop (frame * channels)).take channels).sum / (channels : α))

/-- Mirror of `update_input_buffer` (analysis.rs lines 183-196): when the new
chunk is at least as long as the buffer the whole buffer is replaced by the
chunk's tail (`new_samples[new_size - buffer_size..]`); otherwise the buffer
is shifted left by the chunk length (`copy_within(new_size.., 0)`) and the
chunk is appended at the end. -/
def update_input_buffer {α : Type} (buf new_samples : List α) : List α :=
  if buf.length ≤ new_samples.length then
    new_samples.drop (new_samples.length - buf.length)
  else
    buf.drop new_samples.length ++ new_samples

/-- Helper for the `max_by` fold inside `perform_fft` (analysis.rs lines
238-242).  Rust's `Iterator::max_by` keeps the current maximum only while it
is strictly greater than the next element, so on a tie the later element
wins.  `i` is the index of the next element of the remaining list. -/
def peakBinAux {α : Type} [LinearOrder α] (i : ℕ) (best : ℕ × α) : List α → ℕ × α
  | [] => best
  | x :: xs => peakBinAux (i + 1) (if best.2 > x then best else (i, x)) xs

/-- Mirror of the peak-bin selection in `perform_fft` (analysis.rs lines
237-242): index of the maximal magnitude under `max_by` semantics
(`unwrap_or(0)` for an empty spectrum). -/
def peakBin {α : Type} [LinearOrder α] : List α → ℕ
  | [] => 0
  | x :: xs => (peakBinAux 1 (0, x) xs).1

/-- First index at which the running prefix sum of `bins` (starting from
`acc`, next index `i`) reaches `threshold`; `none` when the whole list is
exhausted without reaching it.  This is the `for`/`break` loop of
`calculate_spectral_rolloff`. -/
def findFirstReach {α : Type} [LinearOrderedField α]
    (threshold : α) : α → ℕ → List α → Option ℕ
  | _, _, [] => none
  | acc, i, x :: xs =>
      if threshold ≤ acc + x then some i else findFirstReach threshold (acc + x) (i + 1) xs

/-- Mirror of `calculate_spectral_rolloff` (analysis.rs lines 456-475):
accumulate magnitudes in ascending bin order until reaching
`0.85 * spectral_energy` (recording that bin and breaking), leaving
`rolloff_bin = 0` when no bin reaches the threshold; afterwards a
`rolloff_bin` equal to `0` — whether because no bin reached the threshold or
because bin 0 itself did — is replaced by the index of the highest bin. -/
def calculate_spectral_rolloff {α : Type} [LinearOrderedField α]
    (spectrum : FrequencyData α) : α :=
  let energy_threshold := spectrum.spectralEnergy * (85 / 100)
  let rolloff_found := (findFirstReach energy_threshold 0 0 spectrum.bins).getD 0
  let rolloff_bin := if rolloff_found = 0 then spectrum.bins.length - 1 else rolloff_found
  spectrum.binFrequencies.getD rolloff_bin 0

/-- Helper shared by the tempo buffer and the feature histories: `push_back`
followed by a `pop_front` when the bound is exceeded (analysis.rs lines
399-402 and 430-443). -/
def pushBounded {α : Type} (buf : List α) (x : α) (cap : ℕ) : List α :=
  let grown := buf ++ [x]
  if cap < grown.length then grown.drop 1 else grown

/-- Mean of the last five history entries, always divided by `5.0`
(analysis.rs lines 380-381: `iter().rev().take(5).sum::<f32>() / 5.0`). -/
def recentAvg {α : Type} [LinearOrderedField α] (hist : List α) : α :=
  (hist.reverse.take 5).sum / 5

/-- Ratio of the current value to a rolling average, defaulting to `1.0`
when the average is not positive (analysis.rs lines 384-385). -/
def ratioOr1 {α : Type} [LinearOrderedField α] (current avg : α) : α :=
  if 0 < avg then current / avg else 1

/-- Mirror of `detect_beat` (analysis.rs lines 374-410), with the wall clock
made explicit: `last_beat_time` and `now` are timestamps in seconds and
`Instant::duration_since` saturates at zero.  Returns the beat confidence
together with the updated tempo buffer and last-beat timestamp. -/
def detect_beat {α : Type} [LinearOrderedField α]
    (volume_history bass_history : List α) (current_volume current_bass : α)
    (last_beat_time now : α) (tempo_buffer : List α) : α × List α × α :=
  if 10 < volume_history.length ∧ 10 < bass_history.length then
    let volume_ratio := ratioOr1 current_volume (recentAvg volume_history)
    let bass_ratio := ratioOr1 current_bass (recentAvg bass_history)
    if 3/2 < volume_ratio ∧ 13/10 < bass_ratio then
      let time_since_last := max (now - last_beat_time) 0
      if 1/10 < time_since_last then
        let beat_confidence := min (((volume_ratio - 3/2) + (bass_ratio - 13/10)) / 2) 1
        if 3/10 < beat_confidence then
          (beat_confidence, pushBounded tempo_buffer time_since_last 32, now)
        else
          (beat_confidence, tempo_buffer, last_beat_time)
      else (0, tempo_buffer, last_beat_time)
    else (0, tempo_buffer, last_beat_time)
  else (0, tempo_buffer, last_beat_time)

/-- Mirror of `estimate_tempo` (analysis.rs lines 413-427): `0` with fewer
than four recorded intervals, otherwise `60 / mean` guarded by a
positive-mean check. -/
def estimate_tempo {α : Type} [LinearOrderedField α] (tempo_buffer : List α) : α :=
  if tempo_buffer.length < 4 then 0
  else
    let avg_interval := tempo_buffer.sum / (tempo_buffer.length : α)
    if 0 < avg_interval then 60 / avg_interval else 0

/-- Bin index of a band's lower edge (analysis.rs lines 321 and 324): linear
proportion of `low_freq / nyquist` over the bin count, truncated to an
integer as Rust's `as usize` cast does, then clamped to
`bins.len().saturating_sub(1)`. -/
def bandLowBin (sample_rate : ℚ) (bin_count : ℕ) (low_freq : ℚ) : ℕ :=
  min (Nat.floor (low_freq / (sample_rate / 2) * (bin_count : ℚ))) (bin_count - 1)

/-- Bin index of a band's upper edge (analysis.rs lines 322 and 325),
clamped to `bins.len()`. -/
def bandHighBin (sample_rate : ℚ) (bin_count : ℕ) (high_freq : ℚ) : ℕ :=
  min (Nat.floor (high_freq / (sample_rate / 2) * (bin_count : ℚ))) bin_count

/-- Mirror of `extract_frequency_band` (analysis.rs lines 319-358): mean
magnitude over the band's bins, logarithmic compression `ln(avg + 1) / 10`
guarded by `avg > 0`, a per-band weight chosen from the band's center
frequency, and a final clamp to `1.0`.  Band edges are in Hz; magnitudes
live in `ℝ` because the source applies `f32::ln`. -/
noncomputable def extract_frequency_band
    (sample_rate : ℚ) (bins : List ℝ) (low_freq high_freq : ℚ) : ℝ :=
  let low_bin := bandLowBin sample_rate bins.length low_freq
  let high_bin := bandHighBin sample_rate bins.length high_freq
  if high_bin ≤ low_bin then 0
  else
    let band_energy := ((bins.drop low_bin).take (high_bin - low_bin)).sum
    let band_width := high_bin - low_bin
    if band_width = 0 then 0
    else
      let avg_energy := band_energy / (band_width : ℝ)
      let log_energy := if 0 < avg_energy then Real.log (avg_energy + 1) / 10 else 0
      let center_freq := (low_freq + high_freq) / 2
      let freq_weight : ℝ := if center_freq < 1000 then 3/2
        else if center_freq < 4000 then 1 else 4/5
      min (log_energy * freq_weight) 1

/-- Band mean as the spec words it: mean magnitude over the band's bin
range, used to compare against the source's inlined computation. -/
noncomputable def bandMean (bins : List ℝ) (low_bin high_bin : ℕ) : ℝ :=
  ((bins.drop low_bin).take (high_bin - low_bin)).sum / ((high_bin - low_bin : ℕ) : ℝ)

/-- Logarithmic compression as the spec words it: `ln(avg + 1) / 10`, `0`
for a non-positive average. -/
noncomputable def bandCompress (avg : ℝ) : ℝ :=
  if 0 < avg then Real.log (avg + 1) / 10 else 0

/-- Per-band perceptual weight as the spec words it: `1.5` for a band
center below 1000 Hz, `1.0` up to 4000 Hz, `0.8` above. -/
noncomputable def bandWeight (center_freq : ℚ) : ℝ :=
  if center_freq < 1000 then 3/2 else if center_freq < 4000 then 1 else 4/5

/-- Mirror of `calculate_zero_crossing_rate` (analysis.rs lines 361-371):
fraction of adjacent pairs with a negative product over `len - 1`
comparisons. -/
def calculate_zero_crossing_rate {α : Type} [LinearOrderedField α]
    (waveform : List α) : α :=
  if waveform.length < 2 then 0
  else
    (((waveform.zip waveform.tail).filter (fun p => p.1 * p.2 < 0)).length : α) /
      ((waveform.length - 1 : ℕ) : α)

/-- Mirror of `prepare_fft_input` (analysis.rs lines 199-220): take the most
recent `fft_size` samples of the sliding buffer (left-zero-padding when the
buffer is shorter) and multiply pointwise with the Hann window. -/
def prepare_fft_input {α : Type} [LinearOrderedField α]
    (input_buffer window : List α) (fft_size : ℕ) : List α :=
  let raw :=
    if fft_size ≤ input_buffer.length then
      input_buffer.drop (input_buffer.length - fft_size)
    else
      List.replicate (fft_size - input_buffer.length) 0 ++ input_buffer
  (raw.zip window).map (fun p => p.1 * p.2)

/-- Analyzer state: the fields of `AudioAnalyzer` (analysis.rs lines 64-88)
that the embedded operations read or write.  The external `realfft` engine
is abstracted as a fallible function from the windowed input to the complex
output bins (pairs of real and imaginary parts). -/
structure AnalyzerState where
  sampleRate : ℚ
  fftSize : ℕ
  inputBuffer : List ℝ
  fftInput : List ℝ
  window : List ℝ
  binFrequencies : List ℝ
  fftProcessor : Option (List ℝ → Except String (List (ℝ × ℝ)))
  volumeHistory : List ℝ
  bassHistory : List ℝ
  lastBeatTime : ℝ
  tempoBuffer : List ℝ

/-- Mirror of `perform_fft` (analysis.rs lines 223-266): bail out when the
processor is missing or the engine fails (the `context` call prefixes the
error), otherwise build magnitudes `|c| / fft_size`, the peak frequency
(`max_by` over the bins), the spectral centroid with its zero-magnitude
guard, and the spectral energy. -/
noncomputable def perform_fft (s : AnalyzerState) : Except String (FrequencyData ℝ) :=
  match s.fftProcessor with
  | none => Except.error "FFT processor not initialized"
  | some proc =>
    match proc s.fftInput with
    | Except.error e => Except.error ("FFT processing failed: " ++ e)
    | Except.ok output =>
      let bins := output.map (fun c => Real.sqrt (c.1 ^ 2 + c.2 ^ 2) / (s.fftSize : ℝ))
      let peak_frequency := s.binFrequencies.getD (peakBin bins) 0
      let total_magnitude := bins.sum
      let spectral_centroid :=
        if 0 < total_magnitude then
          ((bins.zip s.binFrequencies).map (fun p => p.1 * p.2)).sum / total_magnitude
        else 0
      let spectral_energy := (bins.map (fun x => x * x)).sum
      Except.ok
        { bins := bins, binFrequencies := s.binFrequencies,
          peakFrequency := peak_frequency, spectralCentroid := spectral_centroid,
          spectralEnergy := spectral_energy }

/-- Mirror of `AudioFeatures` (analysis.rs lines 31-61). -/
structure AudioFeatures where
  volume : ℝ
  peak : ℝ
  subBass : ℝ
  bass : ℝ
  lowMid : ℝ
  mid : ℝ
  highMid : ℝ
  presence : ℝ
  brilliance : ℝ
  beatConfidence : ℝ
  tempo : ℝ
  zeroCrossingRate : ℝ
  spectralCentroid : ℝ
  spectralRolloff : ℝ

/-- Mirror of `extract_features` (analysis.rs lines 269-316): RMS volume,
peak amplitude, the seven bands, zero-crossing rate, then `detect_beat`
(which mutates the tempo buffer and last-beat timestamp) followed by
`estimate_tempo` on the updated state, and the rolloff.  `now` is the wall
clock observed inside `detect_beat`. -/
noncomputable def extract_features (s : AnalyzerState) (now : ℝ)
    (waveform : List ℝ) (spectrum : FrequencyData ℝ) : AudioFeatures × AnalyzerState :=
  let volume :=
    if waveform.length ≠ 0 then
      Real.sqrt ((waveform.map (fun x => x * x)).sum / (waveform.length : ℝ))
    else 0
  let peak := (waveform.map (fun x => |x|)).foldl max 0
  let sub_bass := extract_frequency_band s.sampleRate spectrum.bins 20 60
  let bass := extract_frequency_band s.sampleRate spectrum.bins 60 250
  let low_mid := extract_frequency_band s.sampleRate spectrum.bins 250 500
  let mid := extract_frequency_band s.sampleRate spectrum.bins 500 2000
  let high_mid := extract_frequency_band s.sampleRate spectrum.bins 2000 4000
  let presence := extract_frequency_band s.sampleRate spectrum.bins 4000 6000
  let brilliance := extract_frequency_band s.sampleRate spectrum.bins 6000 (s.sampleRate / 2)
  let zero_crossing_rate := calculate_zero_crossing_rate waveform
  let beat := detect_beat s.volumeHistory s.bassHistory volume bass
    s.lastBeatTime now s.tempoBuffer
  let s' := { s with tempoBuffer := beat.2.1, lastBeatTime := beat.2.2 }
  let tempo := estimate_tempo s'.tempoBuffer
  (⟨volume, peak, sub_bass, bass, low_mid, mid, high_mid, presence, brilliance,
    beat.1, tempo, zero_crossing_rate, spectrum.spectralCentroid,
    calculate_spectral_rolloff spectrum⟩, s')

/-- Mirror of `update_history` (analysis.rs lines 430-443): push volume and
bass, each bounded to the most recent 100 entries. -/
def update_history (s : AnalyzerState) (features : AudioFeatures) : AnalyzerState :=
  { s with
    volumeHistory := pushBounded s.volumeHistory features.volume 100,
    bassHistory := pushBounded s.bassHistory features.bass 100 }

/-- The analyzer state as it stands when `process_frame` reaches the
`perform_fft` call (analysis.rs lines 136-142): the sliding buffer has
absorbed the mono chunk and the windowed FFT input has been prepared. -/
noncomputable def preTransformState (s : AnalyzerState) (mono : List ℝ) : AnalyzerState :=
  let s1 := { s with inputBuffer := update_input_buffer s.inputBuffer mono }
  { s1 with fftInput := prepare_fft_input s1.inputBuffer s1.window s1.fftSize }

/-- Mirror of `AudioData` (audio/mod.rs): waveform, spectrum, features and
the passed-through timestamp. -/
structure AudioData where
  waveform : List ℝ
  spectrum : FrequencyData ℝ
  features : AudioFeatures
  timestamp : ℝ

/-- Mirror of `process_frame` (analysis.rs lines 134-160): mono conversion,
sliding-buffer update and FFT-input preparation happen first; a failing
transform propagates the error with the `?` operator, leaving the history,
tempo and beat state untouched; on success the features are extracted and
the histories updated. -/
noncomputable def process_frame (s : AnalyzerState) (now : ℝ)
    (samples : List ℝ) (channels : ℕ) (timestamp : ℝ) :
    Except String AudioData × AnalyzerState :=
  let mono := convert_to_mono samples channels
  let s2 := preTransformState s mono
  match perform_fft s2 with
  | Except.error e => (Except.error e, s2)
  | Except.ok spectrum =>
    let fs := extract_features s2 now mono spectrum
    let s4 := update_history fs.2 fs.1
    (Except.ok ⟨mono, spectrum, fs.1, timestamp⟩, s4)

/-- Concrete analyzer state whose abstracted FFT engine always fails,
exercising the error path of `process_frame`. -/
noncomputable def failingAnalyzerState : AnalyzerState :=
  { sampleRate := 44100, fftSize := 4, inputBuffer := [0, 0, 0, 0],
    fftInput := [0, 0, 0, 0], window := [1, 1, 1, 1], binFrequencies := [0, 1, 2],
    fftProcessor := some (fun _ => Except.error "engine rejected buffers"),
    volumeHistory := [], bassHistory := [], lastBeatTime := 0, tempoBuffer := [] }

/-- C1: for a spectrum whose magnitude is concentrated entirely in bin 0
(bins `[1, 0, 0]`, spectral energy `1`), bin 0 is the first bin whose
cumulative magnitude reaches `0.85 * spectral_energy` (since `1 ≥ 0.85`),
so the claim and the source's own comment demand bin 0's frequency `0`;
the code instead returns the highest bin's frequency `20`, because the
`rolloff_bin == 0` fallback cannot distinguish "bin 0 reached the
threshold" from "no bin reached the threshold". -/
theorem calculate_spectral_rolloff_bin0_bug :
    calculate_spectral_rolloff
        { bins := [(1 : ℚ), 0, 0], binFrequencies := [0, 10, 20],
          peakFrequency := 0, spectralCentroid := 0, spectralEnergy := 1 } = 20 ∧
    findFirstReach ((1 : ℚ) * (85/100)) 0 0 [(1 : ℚ), 0, 0] = some 0 ∧
    [(0 : ℚ), 10, 20].getD 0 0 = 0 ∧ (20 : ℚ) ≠ 0 := by
  refine ⟨?_, ?_, by norm_num, by norm_num⟩
  · norm_num [calculate_spectral_rolloff, findFirstReach]
  · norm_num [findFirstReach]

/-- C3: `update_input_buffer` always preserves the buffer length; a chunk at
least as long as the buffer replaces it with the chunk's last
`buffer_size` elements; a shorter chunk shifts the buffer left by the chunk
length and appends the chunk; the empty chunk leaves the buffer unchanged. -/
theorem update_input_buffer_spec {α : Type} (buf new_samples : List α) :
    (update_input_buffer buf new_samples).length = buf.length ∧
    (buf.length ≤ new_samples.length →
      update_input_buffer buf new_samples =
        new_samples.drop (new_samples.length - buf.length)) ∧
    (new_samples.length < buf.length →
      update_input_buffer buf new_samples = buf.drop new_samples.length ++ new_samples) ∧
    (new_samples = [] → update_input_buffer buf new_samples = buf) := by
  unfold update_input_buffer
  by_cases h : buf.length ≤ new_samples.length
  · refine ⟨?_, fun _ => by simp [h], fun h2 => absurd h (Nat.not_le_of_gt h2), fun he => ?_⟩
    · simp only [if_pos h, List.length_drop]
      omega
    · subst he
      simp only [List.length_nil] at h
      have hb : buf = [] := List.length_eq_zero.mp (by omega)
      subst hb
      simp
  · refine ⟨?_, fun h2 => absurd h2 h, fun _ => by simp [h], fun he => ?_⟩
    · simp only [if_neg h, List.length_append, List.length_drop]
      omega
    · subst he
      simp [if_neg h]

/-- C3 witness: a two-element chunk into a three-element buffer shifts the
buffer left and appends, and the length is preserved. -/
theorem update_input_buffer_spec_witness :
    (update_input_buffer [(1 : ℚ), 2, 3] [4, 5]).length = 3 ∧
    update_input_buffer [(1 : ℚ), 2, 3] [4, 5] = [3, 4, 5] ∧
    update_input_buffer [(1 : ℚ), 2, 3] [] = [1, 2, 3] := by
  have h := update_input_buffer_spec [(1 : ℚ), 2, 3] [4, 5]
  have h0 := update_input_buffer_spec [(1 : ℚ), 2, 3] ([] : List ℚ)
  refine ⟨h.1, ?_, h0.2.2.2 rfl⟩
  have := h.2.2.1 (by norm_num)
  simpa using this

/-- C4: `convert_to_mono` passes single-channel input through unchanged; for
`channels ≥ 2` it produces `⌊len / channels⌋` outputs, the `k`-th being the
mean of the `k`-th period of `channels` interleaved samples (trailing
samples of a partial period are discarded by the length formula). -/
theorem convert_to_mono_spec (samples : List ℚ) (channels : ℕ) :
    (channels = 1 → convert_to_mono samples channels = samples) ∧
    (2 ≤ channels →
      (convert_to_mono samples channels).length = samples.length / channels ∧
      ∀ k, k < samples.length / channels →
        (convert_to_mono samples channels).getD k 0 =
          ((samples.drop (k * channels)).take channels).sum / (channels : ℚ)) := by
  constructor
  · intro h
    simp [convert_to_mono, h]
  · intro h
    have h1 : channels ≠ 1 := by omega
    constructor
    · simp [convert_to_mono, h1]
    · intro k hk
      simp [convert_to_mono, h1, List.getD_eq_getElem?_getD, List.getElem?_map,
        List.getElem?_range, hk]

/-- C4 witness: the spec's example — stereo `[1, 2, 3, 4]` downmixes to
`[1.5, 3.5]`. -/
theorem convert_to_mono_spec_witness :
    (convert_to_mono [(1 : ℚ), 2, 3, 4] 2).length = 2 ∧
    (convert_to_mono [(1 : ℚ), 2, 3, 4] 2).getD 0 0 = 3/2 ∧
    (convert_to_mono [(1 : ℚ), 2, 3, 4] 2).getD 1 0 = 7/2 := by
  have h := (convert_to_mono_spec [(1 : ℚ), 2, 3, 4] 2).2 (by norm_num)
  refine ⟨by simpa using h.1, ?_, ?_⟩
  · rw [h.2 0 (by norm_num)]
    norm_num
  · rw [h.2 1 (by norm_num)]
    norm_num

/-- C6: `estimate_tempo` is `0` with fewer than four recorded intervals and
`60 / mean` once four positive intervals are recorded; on the spec's example
`[0.5, 0.5, 0.5, 0.5]` it is `120` BPM. -/
theorem estimate_tempo_spec (tempo_buffer : List ℚ) :
    (tempo_buffer.length < 4 → estimate_tempo tempo_buffer = 0) ∧
    (4 ≤ tempo_buffer.length → (∀ x ∈ tempo_buffer, 0 < x) →
      estimate_tempo tempo_buffer = 60 / (tempo_buffer.sum / (tempo_buffer.length : ℚ))) ∧
    estimate_tempo [(1 : ℚ)/2, 1/2, 1/2, 1/2] = 120 := by
  refine ⟨fun h => by simp [estimate_tempo, h], fun h hpos => ?_, by norm_num [estimate_tempo]⟩
  have hne : tempo_buffer ≠ [] := by
    intro he
    rw [he] at h
    simp at h
  have hsum : 0 < tempo_buffer.sum := List.sum_pos tempo_buffer hpos hne
  have hlen : (0 : ℚ) < (tempo_buffer.length : ℚ) := by
    have : 0 < tempo_buffer.length := by omega
    exact_mod_cast this
  have havg : 0 < tempo_buffer.sum / (tempo_buffer.length : ℚ) := div_pos hsum hlen
  simp only [estimate_tempo, if_neg (by omega : ¬tempo_buffer.length < 4), if_pos havg]

/-- C6 witness: with the four recorded intervals `[0.5, 0.5, 0.5, 0.5]` the
mean-based branch applies and yields `60 / 0.5 = 120` BPM. -/
theorem estimate_tempo_spec_witness :
    estimate_tempo [(1 : ℚ)/2, 1/2, 1/2, 1/2] =
      60 / (([(1 : ℚ)/2, 1/2, 1/2, 1/2].sum) / (([(1 : ℚ)/2, 1/2, 1/2, 1/2].length : ℚ))) ∧
    estimate_tempo [(1 : ℚ)/2, 1/2, 1/2, 1/2] = 120 := by
  have h := estimate_tempo_spec [(1 : ℚ)/2, 1/2, 1/2, 1/2]
  exact ⟨h.2.1 (by norm_num) (by norm_num), h.2.2⟩

/-- C7: with fewer than 11 entries in either rolling history, `detect_beat`
reports confidence exactly `0`, whatever the current volume, bass,
timestamps and tempo buffer are. -/
theorem detect_beat_insufficient_history {α : Type} [LinearOrderedField α]
    (volume_history bass_history : List α) (current_volume current_bass : α)
    (last_beat_time now : α) (tempo_buffer : List α)
    (h : volume_history.length < 11 ∨ bass_history.length < 11) :
    (detect_beat volume_history bass_history current_volume current_bass
      last_beat_time now tempo_buffer).1 = 0 := by
  have hcond : ¬(10 < volume_history.length ∧ 10 < bass_history.length) := by omega
  simp [detect_beat, hcond]

/-- Invariants of the `max_by` fold: the result value dominates the initial
candidate and every scanned element, the result is either the initial
candidate or a scanned element at its index, and every element strictly
after the result's position is strictly below the result's value (because
`max_by` switches to the later element on a tie). -/
theorem peakBinAux_spec {α : Type} [LinearOrder α] :
    ∀ (xs : List α) (i : ℕ) (best : ℕ × α),
      best.2 ≤ (peakBinAux i best xs).2 ∧
      (∀ k (hk : k < xs.length), xs.get ⟨k, hk⟩ ≤ (peakBinAux i best xs).2) ∧
      (peakBinAux i best xs = best ∨
        ∃ k, ∃ hk : k < xs.length,
          (peakBinAux i best xs).1 = i + k ∧ (peakBinAux i best xs).2 = xs.get ⟨k, hk⟩) ∧
      (∀ k (hk : k < xs.length), (peakBinAux i best xs).1 < i + k →
        xs.get ⟨k, hk⟩ < (peakBinAux i best xs).2)
  | [], i, best => by
      refine ⟨le_refl _, fun k hk => absurd hk (by simp), Or.inl rfl, fun k hk => absurd hk (by simp)⟩
  | x :: xs, i, best => by
      by_cases hx : best.2 > x
      · obtain ⟨ih1, ih2, ih3, ih4⟩ := peakBinAux_spec xs (i + 1) best
        have hstep : peakBinAux i best (x :: xs) = peakBinAux (i + 1) best xs := by
          simp [peakBinAux, hx]
        rw [hstep]
        refine ⟨ih1, ?_, ?_, ?_⟩
        · intro k hk
          cases k with
          | zero => exact le_of_lt (lt_of_lt_of_le hx ih1)
          | succ m =>
              have hm : m < xs.length := by simpa using hk
              simpa using ih2 m hm
        · rcases ih3 with h3 | ⟨k, hk, h1, h2⟩
          · exact Or.inl h3
          · refine Or.inr ⟨k + 1, by simpa using Nat.succ_lt_succ hk, ?_, ?_⟩
            · rw [h1]
              omega
            · rw [h2]
              simp
        · intro k hk hlt
          cases k with
          | zero => exact lt_of_lt_of_le hx ih1
          | succ m =>
              have hm : m < xs.length := by simpa using hk
              have hlt' : (peakBinAux (i + 1) best xs).1 < (i + 1) + m := by omega
              simpa using ih4 m hm hlt'
      · obtain ⟨ih1, ih2, ih3, ih4⟩ := peakBinAux_spec xs (i + 1) (i, x)
        have hstep : peakBinAux i best (x :: xs) = peakBinAux (i + 1) (i, x) xs := by
          simp [peakBinAux, hx]
        rw [hstep]
        refine ⟨le_trans (le_of_not_lt hx) ih1, ?_, ?_, ?_⟩
        · intro k hk
          cases k with
          | zero => exact ih1
          | succ m =>
              have hm : m < xs.length := by simpa using hk
              simpa using ih2 m hm
        · rcases ih3 with h3 | ⟨k, hk, h1, h2⟩
          · refine Or.inr ⟨0, by simp, ?_, ?_⟩
            · rw [h3]
              simp
            · rw [h3]
              simp
          · refine Or.inr ⟨k + 1, by simpa using Nat.succ_lt_succ hk, ?_, ?_⟩
            · rw [h1]
              omega
            · rw [h2]
              simp
        · intro k hk hlt
          cases k with
          | zero =>
              exfalso
              rcases ih3 with h3 | ⟨m, hm, h1, _⟩
              · rw [h3] at hlt
                simp at hlt
              · rw [h1] at hlt
                omega
          | succ m =>
              have hm : m < xs.length := by simpa using hk
              have hlt' : (peakBinAux (i + 1) (i, x) xs).1 < (i + 1) + m := by omega
              simpa using ih4 m hm hlt'

/-- C2 amended: `peakBin` (the `max_by` fold of `perform_fft`, whose
frequency is reported as the peak) selects a bin of maximal magnitude, but
a tie between several maximal bins is resolved to the last
(highest-index) such bin: every bin strictly after the selected one is
strictly smaller. -/
theorem peakBin_last_argmax {α : Type} [LinearOrder α] (bins : List α) (h : bins ≠ []) :
    ∃ hp : peakBin bins < bins.length,
      (∀ j (hj : j < bins.length), bins.get ⟨j, hj⟩ ≤ bins.get ⟨peakBin bins, hp⟩) ∧
      ∀ j (hj : j < bins.length), peakBin bins < j →
        bins.get ⟨j, hj⟩ < bins.get ⟨peakBin bins, hp⟩ := by
  cases bins with
  | nil => exact absurd rfl h
  | cons x xs =>
      obtain ⟨ih1, ih2, ih3, ih4⟩ := peakBinAux_spec xs 1 (0, x)
      have hpeak : peakBin (x :: xs) = (peakBinAux 1 (0, x) xs).1 := rfl
      have hmain : ∃ hp : (peakBinAux 1 (0, x) xs).1 < (x :: xs).length,
          (x :: xs).get ⟨(peakBinAux 1 (0, x) xs).1, hp⟩ = (peakBinAux 1 (0, x) xs).2 := by
        rcases ih3 with h3 | ⟨k, hk, h1, h2⟩
        · rw [h3]
          exact ⟨by simp, rfl⟩
        · have hk1 : (peakBinAux 1 (0, x) xs).1 = k + 1 := by omega
          rw [hk1]
          refine ⟨by simpa using Nat.succ_lt_succ hk, ?_⟩
          rw [h2]
          simp
      obtain ⟨hp, hval⟩ := hmain
      rw [hpeak]
      refine ⟨hp, ?_, ?_⟩
      · intro j hj
        rw [hval]
        cases j with
        | zero => exact ih1
        | succ m =>
            have hm : m < xs.length := by simpa using hj
            simpa using ih2 m hm
      · intro j hj hlt
        rw [hval]
        cases j with
        | zero => omega
        | succ m =>
            have hm : m < xs.length := by simpa using hj
            have hlt' : (peakBinAux 1 (0, x) xs).1 < 1 + m := by omega
            simpa using ih4 m hm hlt'

/-- C2 witness: on bins `[1, 3, 2]` the selected peak bin is in range, is
maximal, and strictly dominates every later bin. -/
theorem peakBin_last_argmax_witness :
    ([(1 : ℚ), 3, 2] ≠ []) ∧
    ∃ hp : peakBin [(1 : ℚ), 3, 2] < [(1 : ℚ), 3, 2].length,
      (∀ j (hj : j < [(1 : ℚ), 3, 2].length),
        [(1 : ℚ), 3, 2].get ⟨j, hj⟩ ≤ [(1 : ℚ), 3, 2].get ⟨peakBin [(1 : ℚ), 3, 2], hp⟩) ∧
      ∀ j (hj : j < [(1 : ℚ), 3, 2].length), peakBin [(1 : ℚ), 3, 2] < j →
        [(1 : ℚ), 3, 2].get ⟨j, hj⟩ < [(1 : ℚ), 3, 2].get ⟨peakBin [(1 : ℚ), 3, 2], hp⟩ :=
  ⟨by simp, peakBin_last_argmax [(1 : ℚ), 3, 2] (by simp)⟩

/-- C2 counterexample: with the two bins `[5, 5]` sharing the maximal
magnitude, the claim as stated demands the first such bin (index `0`), but
the `max_by` fold selects index `1`. -/
theorem peakBin_first_tie_counterexample :
    peakBin [(5 : ℚ), 5] = 1 ∧
    [(5 : ℚ), 5].getD 0 0 = [(5 : ℚ), 5].getD 1 0 ∧ (1 : ℕ) ≠ 0 := by
  refine ⟨?_, by norm_num, by norm_num⟩
  norm_num [peakBin, peakBinAux]

/-- C5 amended: with enough history, a beat candidate is recognized (nonzero
confidence) exactly when the volume ratio exceeds `1.5`, the bass ratio
exceeds `1.3` and STRICTLY MORE than `0.1 s` has elapsed since the last
accepted beat; its confidence is the clamped average of the threshold
excesses; only a confidence above `0.3` pushes the inter-beat interval into
the tempo buffer (bounded to 32) and advances the last-beat timestamp, and
every other outcome leaves both unchanged. -/
theorem detect_beat_spec (volume_history bass_history : List ℚ)
    (current_volume current_bass last_beat_time now : ℚ) (tempo_buffer : List ℚ)
    (hv : 10 < volume_history.length) (hb : 10 < bass_history.length) :
    ((detect_beat volume_history bass_history current_volume current_bass
        last_beat_time now tempo_buffer).1 ≠ 0 ↔
      (3/2 < ratioOr1 current_volume (recentAvg volume_history) ∧
        13/10 < ratioOr1 current_bass (recentAvg bass_history) ∧
        1/10 < max (now - last_beat_time) 0)) ∧
    (3/2 < ratioOr1 current_volume (recentAvg volume_history) →
      13/10 < ratioOr1 current_bass (recentAvg bass_history) →
      1/10 < max (now - last_beat_time) 0 →
      (detect_beat volume_history bass_history current_volume current_bass
          last_beat_time now tempo_buffer).1 =
        min (((ratioOr1 current_volume (recentAvg volume_history) - 3/2) +
          (ratioOr1 current_bass (recentAvg bass_history) - 13/10)) / 2) 1) ∧
    (3/10 < (detect_beat volume_history bass_history current_volume current_bass
        last_beat_time now tempo_buffer).1 →
      (detect_beat volume_history bass_history current_volume current_bass
          last_beat_time now tempo_buffer).2.1 =
        pushBounded tempo_buffer (max (now - last_beat_time) 0) 32 ∧
      (detect_beat volume_history bass_history current_volume current_bass
          last_beat_time now tempo_buffer).2.2 = now) ∧
    ((detect_beat volume_history bass_history current_volume current_bass
        last_beat_time now tempo_buffer).1 ≤ 3/10 →
      (detect_beat volume_history bass_history current_volume current_bass
          last_beat_time now tempo_buffer).2.1 = tempo_buffer ∧
      (detect_beat volume_history bass_history current_volume current_bass
          last_beat_time now tempo_buffer).2.2 = last_beat_time) := by
  have hcond : 10 < volume_history.length ∧ 10 < bass_history.length := ⟨hv, hb⟩
  simp only [detect_beat, if_pos hcond]
  by_cases hc : 3/2 < ratioOr1 current_volume (recentAvg volume_history) ∧
      13/10 < ratioOr1 current_bass (recentAvg bass_history)
  · rw [if_pos hc]
    by_cases ht : 1/10 < max (now - last_beat_time) 0
    · rw [if_pos ht]
      by_cases hconf : 3/10 <
          min (((ratioOr1 current_volume (recentAvg volume_history) - 3/2) +
            (ratioOr1 current_bass (recentAvg bass_history) - 13/10)) / 2) 1
      · rw [if_pos hconf]
        refine ⟨⟨fun _ => ⟨hc.1, hc.2, ht⟩, fun _ => by positivity⟩,
          fun _ _ _ => rfl, fun _ => ⟨rfl, rfl⟩, fun hle => absurd hconf (not_lt.mpr hle)⟩
      · rw [if_neg hconf]
        have hpos : 0 < min (((ratioOr1 current_volume (recentAvg volume_history) - 3/2) +
            (ratioOr1 current_bass (recentAvg bass_history) - 13/10)) / 2) 1 := by
          have h1 : 0 < (ratioOr1 current_volume (recentAvg volume_history) - 3/2) := by
            linarith [hc.1]
          have h2 : 0 < (ratioOr1 current_bass (recentAvg bass_history) - 13/10) := by
            linarith [hc.2]
          have : (0 : ℚ) < 1 := by norm_num
          positivity
        exact ⟨⟨fun _ => ⟨hc.1, hc.2, ht⟩, fun _ => ne_of_gt hpos⟩,
          fun _ _ _ => rfl, fun hgt => absurd hgt hconf, fun _ => ⟨rfl, rfl⟩⟩
    · rw [if_neg ht]
      exact ⟨⟨fun hne => absurd rfl hne, fun hcc => absurd hcc.2.2 ht⟩,
        fun _ _ hcc => absurd hcc ht, fun hgt => absurd hgt (by norm_num),
        fun _ => ⟨rfl, rfl⟩⟩
  · rw [if_neg hc]
    exact ⟨⟨fun hne => absurd rfl hne, fun hcc => absurd ⟨hcc.1, hcc.2.1⟩ hc⟩,
      fun h1 h2 _ => absurd ⟨h1, h2⟩ hc, fun hgt => absurd hgt (by norm_num),
      fun _ => ⟨rfl, rfl⟩⟩

/-- C5 witness: eleven-entry flat histories, a doubled volume and bass, and
a full second since the last beat produce a recognized candidate. -/
theorem detect_beat_spec_witness :
    (detect_beat [(1 : ℚ), 1, 1, 1, 1, 1, 1, 1, 1, 1, 1] [1, 1, 1, 1, 1, 1, 1, 1, 1, 1, 1]
      2 2 0 1 []).1 ≠ 0 := by
  have h := detect_beat_spec [(1 : ℚ), 1, 1, 1, 1, 1, 1, 1, 1, 1, 1]
    [1, 1, 1, 1, 1, 1, 1, 1, 1, 1, 1] 2 2 0 1 [] (by norm_num) (by norm_num)
  refine h.1.mpr ⟨?_, ?_, by norm_num⟩
  · norm_num [ratioOr1, recentAvg]
  · norm_num [ratioOr1, recentAvg]

/-- C5 counterexample: at exactly 100 ms since the last accepted beat —
which satisfies the claim's "at least 100 ms" — with both ratios passing
their thresholds, the code reports confidence `0` instead of the claimed
clamped confidence `0.6`, because it requires strictly more than `0.1 s`. -/
theorem detect_beat_debounce_boundary_counterexample :
    3/2 < ratioOr1 (2 : ℚ) (recentAvg [(1 : ℚ), 1, 1, 1, 1, 1, 1, 1, 1, 1, 1]) ∧
    13/10 < ratioOr1 (2 : ℚ) (recentAvg [(1 : ℚ), 1, 1, 1, 1, 1, 1, 1, 1, 1, 1]) ∧
    1/10 ≤ max ((1/10 : ℚ) - 0) 0 ∧
    (detect_beat [(1 : ℚ), 1, 1, 1, 1, 1, 1, 1, 1, 1, 1] [1, 1, 1, 1, 1, 1, 1, 1, 1, 1, 1]
      2 2 0 (1/10) []).1 = 0 ∧
    ((0 : ℚ) ≠ min (((2 - 3/2) + (2 - 13/10)) / 2) 1) := by
  refine ⟨by norm_num [ratioOr1, recentAvg], by norm_num [ratioOr1, recentAvg],
    by norm_num, ?_, by norm_num⟩
  norm_num [detect_beat, ratioOr1, recentAvg]

/-- Strict lower bound on a sum: if every entry of a nonempty list exceeds
`c`, the sum exceeds `c` times the length. -/
theorem mul_length_lt_sum {α : Type} [LinearOrderedField α] (l : List α) (c : α)
    (h : ∀ x ∈ l, c < x) (hne : l ≠ []) : c * (l.length : α) < l.sum := by
  induction l with
  | nil => exact absurd rfl hne
  | cons x xs ih =>
      by_cases hxs : xs = []
      · subst hxs
        have := h x (List.mem_cons_self x [])
        simp only [List.sum_cons, List.sum_nil, List.length_cons, List.length_nil]
        push_cast
        linarith
      · have hs := ih (fun y hy => h y (List.mem_cons_of_mem x hy)) hxs
        have hx := h x (List.mem_cons_self x xs)
        simp only [List.sum_cons, List.length_cons]
        push_cast
        linarith

/-- C10: every interval `detect_beat` ever stores in the tempo buffer is
strictly greater than `0.1 s` (it is pushed only under the debounce guard),
the property is preserved by the bounded push, and for any buffer
satisfying it a nonzero `estimate_tempo` lies strictly between `0` and
`600` BPM. -/
theorem tempo_buffer_invariant {α : Type} [LinearOrderedField α]
    (volume_history bass_history tempo_buffer : List α)
    (current_volume current_bass last_beat_time now : α)
    (hinv : ∀ x ∈ tempo_buffer, 1/10 < x) :
    (∀ x ∈ (detect_beat volume_history bass_history current_volume current_bass
        last_beat_time now tempo_buffer).2.1, 1/10 < x) ∧
    (estimate_tempo tempo_buffer ≠ 0 →
      0 < estimate_tempo tempo_buffer ∧ estimate_tempo tempo_buffer < 600) := by
  constructor
  · simp only [detect_beat]
    split_ifs with h1 h2 h3 h4
    · intro x hx
      simp only [pushBounded] at hx
      have hmem : x ∈ tempo_buffer ++ [max (now - last_beat_time) 0] := by
        split_ifs at hx
        · exact List.mem_of_mem_drop hx
        · exact hx
      rcases List.mem_append.mp hmem with hm | hm
      · exact hinv x hm
      · have hx' : x = max (now - last_beat_time) 0 := by simpa using hm
        rw [hx']
        exact h3
    all_goals exact hinv
  · intro hne
    by_cases hlen : tempo_buffer.length < 4
    · exact absurd (by simp [estimate_tempo, hlen]) hne
    · by_cases havg : 0 < tempo_buffer.sum / (tempo_buffer.length : α)
      · have heq : estimate_tempo tempo_buffer =
            60 / (tempo_buffer.sum / (tempo_buffer.length : α)) := by
          simp [estimate_tempo, hlen, havg]
        have hlenpos : (0 : α) < (tempo_buffer.length : α) := by
          have : 0 < tempo_buffer.length := by omega
          exact_mod_cast this
        have hnenil : tempo_buffer ≠ [] := by
          intro hni
          rw [hni] at hlen
          simp at hlen
        have hsum : (1/10 : α) * (tempo_buffer.length : α) < tempo_buffer.sum :=
          mul_length_lt_sum tempo_buffer (1/10) hinv hnenil
        have havg' : (1/10 : α) < tempo_buffer.sum / (tempo_buffer.length : α) :=
          (lt_div_iff₀ hlenpos).mpr hsum
        constructor
        · rw [heq]
          exact div_pos (by norm_num) havg
        · rw [heq]
          rw [div_lt_iff₀ havg]
          calc (60 : α) = 600 * (1/10) := by norm_num
          _ < 600 * (tempo_buffer.sum / (tempo_buffer.length : α)) := by
              exact mul_lt_mul_of_pos_left havg' (by norm_num)
      · exact absurd (by simp [estimate_tempo, hlen, havg]) hne

/-- C10 witness: a tempo buffer of four one-second intervals satisfies the
invariant and yields the tempo `60`, strictly between `0` and `600`. -/
theorem tempo_buffer_invariant_witness :
    (∀ x ∈ [(1 : ℚ), 1, 1, 1], 1/10 < x) ∧
    0 < estimate_tempo [(1 : ℚ), 1, 1, 1] ∧ estimate_tempo [(1 : ℚ), 1, 1, 1] < 600 := by
  have h := tempo_buffer_invariant ([] : List ℚ) [] [(1 : ℚ), 1, 1, 1] 0 0 0 0
    (by norm_num)
  exact ⟨by norm_num, h.2 (by norm_num [estimate_tempo])⟩

/-- C8: `extract_frequency_band` returns `0` on a degenerate (empty) bin
range; on a non-degenerate range it is exactly the compression of the band
mean, then the perceptual weight, then the clamp — in that order (the
spec-worded `min (bandCompress (bandMean ...) * bandWeight center) 1`); and
for non-negative magnitudes the result always lies in `[0, 1]`. -/
theorem extract_frequency_band_spec (sample_rate : ℚ) (bins : List ℝ)
    (low_freq high_freq : ℚ) :
    (bandHighBin sample_rate bins.length high_freq ≤
        bandLowBin sample_rate bins.length low_freq →
      extract_frequency_band sample_rate bins low_freq high_freq = 0) ∧
    (bandLowBin sample_rate bins.length low_freq <
        bandHighBin sample_rate bins.length high_freq →
      extract_frequency_band sample_rate bins low_freq high_freq =
        min (bandCompress (bandMean bins (bandLowBin sample_rate bins.length low_freq)
            (bandHighBin sample_rate bins.length high_freq)) *
          bandWeight ((low_freq + high_freq) / 2)) 1) ∧
    ((∀ x ∈ bins, 0 ≤ x) →
      0 ≤ extract_frequency_band sample_rate bins low_freq high_freq ∧
      extract_frequency_band sample_rate bins low_freq high_freq ≤ 1) := by
  have hweight : 0 ≤ bandWeight ((low_freq + high_freq) / 2) := by
    unfold bandWeight
    split_ifs <;> norm_num
  refine ⟨fun hdeg => by simp [extract_frequency_band, hdeg], fun hlt => ?_, fun hpos => ?_⟩
  · have hne : ¬(bandHighBin sample_rate bins.length high_freq ≤
        bandLowBin sample_rate bins.length low_freq) := not_le.mpr hlt
    have hw : ¬(bandHighBin sample_rate bins.length high_freq -
        bandLowBin sample_rate bins.length low_freq = 0) := by omega
    simp only [extract_frequency_band, if_neg hne, if_neg hw]
    rfl
  · by_cases hdeg : bandHighBin sample_rate bins.length high_freq ≤
        bandLowBin sample_rate bins.length low_freq
    · simp [extract_frequency_band, hdeg]
    · have hlt := not_le.mp hdeg
      have hw : ¬(bandHighBin sample_rate bins.length high_freq -
          bandLowBin sample_rate bins.length low_freq = 0) := by omega
      simp only [extract_frequency_band, if_neg hdeg, if_neg hw]
      have hsum : 0 ≤ ((bins.drop (bandLowBin sample_rate bins.length low_freq)).take
          (bandHighBin sample_rate bins.length high_freq -
            bandLowBin sample_rate bins.length low_freq)).sum := by
        apply List.sum_nonneg
        intro x hx
        exact hpos x (List.mem_of_mem_drop (List.mem_of_mem_take hx))
      have havg : 0 ≤ ((bins.drop (bandLowBin sample_rate bins.length low_freq)).take
          (bandHighBin sample_rate bins.length high_freq -
            bandLowBin sample_rate bins.length low_freq)).sum /
          ((bandHighBin sample_rate bins.length high_freq -
            bandLowBin sample_rate bins.length low_freq : ℕ) : ℝ) :=
        div_nonneg hsum (Nat.cast_nonneg _)
      have hlog : 0 ≤ (if 0 < ((bins.drop (bandLowBin sample_rate bins.length low_freq)).take
          (bandHighBin sample_rate bins.length high_freq -
            bandLowBin sample_rate bins.length low_freq)).sum /
          ((bandHighBin sample_rate bins.length high_freq -
            bandLowBin sample_rate bins.length low_freq : ℕ) : ℝ) then
            Real.log (((bins.drop (bandLowBin sample_rate bins.length low_freq)).take
              (bandHighBin sample_rate bins.length high_freq -
                bandLowBin sample_rate bins.length low_freq)).sum /
              ((bandHighBin sample_rate bins.length high_freq -
                bandLowBin sample_rate bins.length low_freq : ℕ) : ℝ) + 1) / 10
          else 0) := by
        split_ifs with hp
        · have : (0 : ℝ) ≤ Real.log (((bins.drop (bandLowBin sample_rate bins.length
              low_freq)).take (bandHighBin sample_rate bins.length high_freq -
                bandLowBin sample_rate bins.length low_freq)).sum /
              ((bandHighBin sample_rate bins.length high_freq -
                bandLowBin sample_rate bins.length low_freq : ℕ) : ℝ) + 1) :=
            Real.log_nonneg (by linarith)
          linarith
        · exact le_refl 0
      have hmul : 0 ≤ (if 0 < ((bins.drop (bandLowBin sample_rate bins.length low_freq)).take
          (bandHighBin sample_rate bins.length high_freq -
            bandLowBin sample_rate bins.length low_freq)).sum /
          ((bandHighBin sample_rate bins.length high_freq -
            bandLowBin sample_rate bins.length low_freq : ℕ) : ℝ) then
            Real.log (((bins.drop (bandLowBin sample_rate bins.length low_freq)).take
              (bandHighBin sample_rate bins.length high_freq -
                bandLowBin sample_rate bins.length low_freq)).sum /
              ((bandHighBin sample_rate bins.length high_freq -
                bandLowBin sample_rate bins.length low_freq : ℕ) : ℝ) + 1) / 10
          else 0) *
          (if (low_freq + high_freq) / 2 < 1000 then (3/2 : ℝ)
            else if (low_freq + high_freq) / 2 < 4000 then 1 else 4/5) := by
        apply mul_nonneg hlog
        split_ifs <;> norm_num
      exact ⟨le_min hmul zero_le_one, min_le_right _ _⟩

/-- C8 witness: on an all-zero four-bin spectrum at sample rate 8 Hz, the
20–60 Hz band maps to a valid bin range and the result is within `[0, 1]`. -/
theorem extract_frequency_band_spec_witness :
    (∀ x ∈ [(0 : ℝ), 0, 0, 0], 0 ≤ x) ∧
    0 ≤ extract_frequency_band 44100 [(0 : ℝ), 0, 0, 0] 20 60 ∧
    extract_frequency_band 44100 [(0 : ℝ), 0, 0, 0] 20 60 ≤ 1 := by
  have h := (extract_frequency_band_spec 44100 [(0 : ℝ), 0, 0, 0] 20 60).2.2 (by
    intro x hx
    simp at hx
    simp [hx])
  exact ⟨by intro x hx; simp at hx; simp [hx], h.1, h.2⟩

/-- C9: when the spectral transform step fails, `process_frame` returns that
error and the volume history, bass history, tempo buffer and last-beat
timestamp are exactly as they were before the call (only the sliding input
buffer and windowed FFT input, which are written before the transform, may
differ), so analysis can resume on the next frame. -/
theorem process_frame_transform_error (s : AnalyzerState) (now : ℝ) (samples : List ℝ)
    (channels : ℕ) (timestamp : ℝ) (e : String)
    (h : perform_fft (preTransformState s (convert_to_mono samples channels)) =
      Except.error e) :
    (process_frame s now samples channels timestamp).1 = Except.error e ∧
    (process_frame s now samples channels timestamp).2.volumeHistory = s.volumeHistory ∧
    (process_frame s now samples channels timestamp).2.bassHistory = s.bassHistory ∧
    (process_frame s now samples channels timestamp).2.tempoBuffer = s.tempoBuffer ∧
    (process_frame s now samples channels timestamp).2.lastBeatTime = s.lastBeatTime := by
  simp only [process_frame, h]
  simp [preTransformState]

/-- C9 witness: with the always-failing engine, processing a frame surfaces
the prefixed engine error and leaves all four beat/feature state components
untouched. -/
theorem process_frame_transform_error_witness :
    (process_frame failingAnalyzerState 0 [0, 0] 1 0).1 =
      Except.error "FFT processing failed: engine rejected buffers" ∧
    (process_frame failingAnalyzerState 0 [0, 0] 1 0).2.volumeHistory = [] ∧
    (process_frame failingAnalyzerState 0 [0, 0] 1 0).2.bassHistory = [] ∧
    (process_frame failingAnalyzerState 0 [0, 0] 1 0).2.tempoBuffer = [] ∧
    (process_frame failingAnalyzerState 0 [0, 0] 1 0).2.lastBeatTime = 0 := by
  have h := process_frame_transform_error failingAnalyzerState 0 [0, 0] 1 0
    "FFT processing failed: engine rejected buffers" rfl
  exact ⟨h.1, h.2.1, h.2.2.1, h.2.2.2.1, h.2.2.2.2⟩

/-- C7 witness: empty histories with loud current values still yield
confidence `0`. -/
theorem detect_beat_insufficient_history_witness :
    ([] : List ℚ).length < 11 ∧
    (detect_beat ([] : List ℚ) [] 5 5 0 1 []).1 = 0 :=
  ⟨by norm_num,
    detect_beat_insufficient_history [] [] 5 5 0 1 [] (Or.inl (by norm_num))⟩
